import Mathlib

/-!
Verification of the settings-storage and search-engine layer of the
tab-extension repository (scripts/storage.js, scripts/engines.js,
scripts/search.js, scripts/main.js, scripts/settings.js).

The persisted settings document is a JSON value; we embed JSON values as
the inductive type `JVal` (numbers as rationals).  JavaScript objects are
modelled as association lists of (key, value) pairs in insertion order:
key lookup takes the first matching entry and assignment replaces the
first matching entry in place or appends a fresh key at the end, exactly
as JavaScript property update behaves on objects without duplicate keys.
-/

inductive JVal : Type where
  | null : JVal
  | bool : Bool → JVal
  | num : ℚ → JVal
  | str : String → JVal
  | arr : List JVal → JVal
  | obj : List (String × JVal) → JVal

/-- JavaScript truthiness of a JSON value (`NaN` does not arise for
rational numbers; documents, arrays and objects are always truthy). -/
def truthy : JVal → Bool
  | JVal.null => false
  | JVal.bool b => b
  | JVal.num q => if q = 0 then false else true
  | JVal.str s => if s = "" then false else true
  | JVal.arr _ => true
  | JVal.obj _ => true

/-- Whether a JSON value is a plain object. -/
def isObjB : JVal → Bool
  | JVal.obj _ => true
  | _ => false

/-- Property read `o[k]` on an object's field list: first entry wins. -/
def lookupField : List (String × JVal) → String → Option JVal
  | [], _ => none
  | (k, v) :: rest, key => if k = key then some v else lookupField rest key

/-- Property write `o[k] = v`: replace the first entry with that key in
place, or append the key at the end when it is absent (JS insertion
order semantics). -/
def setField : List (String × JVal) → String → JVal → List (String × JVal)
  | [], key, v => [(key, v)]
  | (k, w) :: rest, key, v =>
      if k = key then (key, v) :: rest else (k, w) :: setField rest key v

/-- Field lists without duplicate keys (every JS object literal and every
object built by property assignment satisfies this). -/
def keysNodupB : List (String × JVal) → Bool
  | [] => true
  | (k, _) :: rest => (lookupField rest k).isNone && keysNodupB rest

/-- Property read on an arbitrary JSON value: only plain objects carry
(modelled) own properties; reads on primitives yield `undefined`
(`none`).  (String index/`length` properties are outside the modelled
domain; no claim reads a category off a non-object document.)  -/
def jsGet : JVal → String → Option JVal
  | JVal.obj fs, k => lookupField fs k
  | _, _ => none

mutual

/-- Loop `for (const key in source)` of `deepMerge` inside
`StorageManager.mergeWithDefaults` (storage.js): walk the source
object's keys in insertion order; each key is assigned or merged into
the target by `mergedEntryVal`. -/
def deepMergeFields : List (String × JVal) → List (String × JVal) → List (String × JVal)
  | tfs, [] => tfs
  | tfs, (k, v) :: rest =>
      deepMergeFields (setField tfs k (mergedEntryVal (lookupField tfs k) v)) rest
termination_by tfs sfs => sizeOf sfs

/-- Value stored for one key by the `deepMerge` loop: for an object
source value the code recurses into `target[key] || {}`; any other
source value (scalars, `null`, and arrays — arrays are explicitly
excluded from the recursion by `!Array.isArray(source[key])`) is
assigned wholesale.  When the old target value is a truthy non-object
and the source value is an object, JavaScript's sloppy-mode property
writes on a primitive are no-ops, so the target value survives
unchanged; a truthy non-object, non-primitive target (an array) under
an object source is outside the modelled domain and is excluded by the
partial-document hypotheses below. -/
def mergedEntryVal : Option JVal → JVal → JVal
  | t?, JVal.obj vfs =>
      (match (match t? with
              | some t => if truthy t then t else JVal.obj []
              | none => JVal.obj []) with
       | JVal.obj t0fs => JVal.obj (deepMergeFields t0fs vfs)
       | other => other)
  | _, v => v
termination_by t? v => sizeOf v

end

/-- The recursive `deepMerge(target, source)` of
`StorageManager.mergeWithDefaults`: `for (const key in source)` walks the
source object's keys in insertion order and assigns or merges each one
into the target.  A non-object source contributes no keys (`for..in`
over a primitive iterates nothing), and property writes into a
non-object target are sloppy-mode no-ops. -/
def deepMerge (target source : JVal) : JVal :=
  match target, source with
  | JVal.obj tfs, JVal.obj sfs => JVal.obj (deepMergeFields tfs sfs)
  | t, _ => t

/-- One entry of `engines.list` / `defaultSettings.engines.list` as a
JSON object. -/
def engineJVal (id name url icon : String) : JVal :=
  JVal.obj [("id", JVal.str id), ("name", JVal.str name),
            ("url", JVal.str url), ("icon", JVal.str icon)]

/-- Field list of `StorageManager.defaultSettings` (storage.js). -/
def defaultSettingsFields : List (String × JVal) :=
  [ ("general", JVal.obj
      [ ("searchWidth", JVal.num 40), ("searchHeight", JVal.num 7),
        ("searchRadius", JVal.num 30), ("searchOpacity", JVal.num 0.8),
        ("openIn", JVal.str "new-tab"), ("tabSwitch", JVal.bool true) ]),
    ("wallpaper", JVal.obj
      [ ("imageUrl", JVal.str "assets/images/default.png"),
        ("blur", JVal.num 0), ("overlayOpacity", JVal.num 0.3) ]),
    ("engines", JVal.obj
      [ ("default", JVal.str "google"),
        ("list", JVal.arr
          [ engineJVal "google" "Google" "https://www.google.com/search?q=%s" "assets/icons/google.ico",
            engineJVal "bing" "Bing" "https://www.bing.com/search?q=%s" "assets/icons/bing.ico",
            engineJVal "baidu" "百度" "https://www.baidu.com/s?wd=%s" "assets/icons/baidu.ico",
            engineJVal "duckduckgo" "DuckDuckGo" "https://duckduckgo.com/?q=%s" "assets/icons/duckduckgo.ico" ]) ]),
    ("theme", JVal.obj [ ("mode", JVal.str "system") ]) ]

/-- The hard-coded default settings document `this.defaultSettings`. -/
def defaultSettings : JVal := JVal.obj defaultSettingsFields

/-- The body of `StorageManager.mergeWithDefaults(data)`: deep-copy the
defaults (`JSON.parse(JSON.stringify(...))` is the identity on our pure
values) and deep-merge the persisted data over them. -/
def mergeWithDefaults (data : JVal) : JVal :=
  deepMerge defaultSettings data

/-- The body of `StorageManager.getCategory(category)`.  Its input is
the outcome of `this.get()`: a read failure (`Except.error`), an empty
store (`Except.ok none`, i.e. `undefined`), or a stored document.  The
code returns `allSettings ? allSettings[category] :
this.defaultSettings[category]` inside a try/catch whose handler also
returns the default slice. -/
def getCategory (r : Except String (Option JVal)) (category : String) : Option JVal :=
  match r with
  | Except.error _ => lookupField defaultSettingsFields category
  | Except.ok none => lookupField defaultSettingsFields category
  | Except.ok (some doc) =>
      if truthy doc then jsGet doc category
      else lookupField defaultSettingsFields category

/-- Spread `{...v}` of the looked-up category value into an object
literal: objects contribute their fields; `undefined` (absent key) and
`null`, booleans and numbers contribute nothing.  (Spreading a string or
an array would contribute index properties; those documents are outside
the modelled domain and excluded by the claims' shape hypotheses.) -/
def spreadFields : Option JVal → List (String × JVal)
  | some (JVal.obj fs) => fs
  | _ => []

/-- Shallow merge `{...a, ...b}` of two field lists: keys of `a` in
order, then keys of `b`, later occurrences overriding in place. -/
def shallowMerge (a : List (String × JVal)) : List (String × JVal) → List (String × JVal)
  | [] => a
  | (k, v) :: rest => shallowMerge (setField a k v) rest

/-- The body of `StorageManager.updateCategory(category, updates)` as a
store transformer: read the whole document (`(await this.get()) || {}`),
rebuild it as `{...allSettings, [category]: {...allSettings[category],
...updates}}`, and write it back.  The input store is `none` when the
underlying storage holds nothing for the key. -/
def updateCategory (st : Option JVal) (category : String)
    (updates : List (String × JVal)) : Option JVal :=
  let allFields : List (String × JVal) :=
    match st with
    | some (JVal.obj fs) => fs
    | _ => []
  some (JVal.obj (setField allFields category
    (JVal.obj (shallowMerge (spreadFields (lookupField allFields category)) updates))))

/-- The body of `StorageManager.init()` on a successful read: when the
read yields no document (or a falsy one) the defaults are written to the
store and returned; otherwise the store is left as is and the merged
document is returned. -/
def storageInit (st : Option JVal) : Option JVal × JVal :=
  match st with
  | some d =>
      if truthy d then (some d, mergeWithDefaults d)
      else (some defaultSettings, defaultSettings)
  | none => (some defaultSettings, defaultSettings)

mutual

/-- Recursive well-formedness of persisted data relative to a schema's
field list, written as an executable check: every key of the data occurs
in the schema; where the schema holds an object the data holds an object
whose fields are recursively compatible and duplicate-free; where the
schema holds a non-object the data holds a non-object.  This is the
formal reading of "partial persisted document" — a document missing any
subset of schema keys but shaped like the schema where present. -/
def partialFieldsB : List (String × JVal) → List (String × JVal) → Bool
  | _, [] => true
  | sfs, (k, v) :: rest =>
      partialEntryB (lookupField sfs k) v && partialFieldsB sfs rest
termination_by sfs dfs => sizeOf dfs

/-- Per-key check of `partialFieldsB`: compares the schema's value at a
key (first argument, `none` when the schema lacks the key) with the
persisted value there. -/
def partialEntryB : Option JVal → JVal → Bool
  | some (JVal.obj ssub), JVal.obj vsub =>
      partialFieldsB ssub vsub && keysNodupB vsub
  | some (JVal.obj _), _ => false
  | some _, JVal.obj _ => false
  | some _, _ => true
  | none, _ => false
termination_by sv v => sizeOf v

end

/-- Path lookup in a JSON document (used to state merge properties);
descends through objects only, as the settings schema nests only
objects. -/
def getPath : JVal → List String → Option JVal
  | v, [] => some v
  | JVal.obj fs, k :: ks =>
      (match lookupField fs k with
       | some v => getPath v ks
       | none => none)
  | _, _ :: _ => none

/-- Matching of a pattern at the head of a character list (used to model
`String.prototype.includes` and first-occurrence `replace`). -/
def patAt : List Char → List Char → Bool
  | [], _ => true
  | _ :: _, [] => false
  | a :: p, b :: s => a == b && patAt p s

/-- Whether a pattern occurs anywhere in a character list. -/
def hasPat (p : List Char) : List Char → Bool
  | [] => patAt p []
  | c :: s => patAt p (c :: s) || hasPat p s

/-- JavaScript `s.includes(pat)`. -/
def strIncludes (s pat : String) : Bool :=
  hasPat pat.data s.data

/-- JavaScript `s.replace(pat, rep)` with a string pattern: replace the
first occurrence only.  (`$`-substitution patterns in the replacement
never arise here: the only replacement ever used is an
`encodeURIComponent` result, which percent-encodes `$`.) -/
def replFirst (p rep : List Char) : List Char → List Char
  | [] => if patAt p [] then rep else []
  | c :: s =>
      if patAt p (c :: s) then rep ++ (c :: s).drop p.length
      else c :: replFirst p rep s

/-- String wrapper for first-occurrence replacement. -/
def replaceFirstStr (s pat rep : String) : String :=
  String.mk (replFirst pat.data rep.data s.data)

/-- One search-engine record `{id, name, url, icon}`. -/
structure Engine where
  id : String
  name : String
  url : String
  icon : String
deriving DecidableEq, Repr

/-- JSON form of an engine record, as persisted in `engines.list`. -/
def engineToJVal (e : Engine) : JVal :=
  engineJVal e.id e.name e.url e.icon

/-- In-memory state of the `Engines` class (engines.js): `this.engines`
and `this.defaultEngineId`. -/
structure EnginesState where
  engines : List Engine
  defaultEngineId : String
deriving DecidableEq, Repr

/-- Payload of a `storageManager.updateCategory('engines', ...)` call
issued by an `Engines` mutator: the `list` and/or `default` fields it
writes. -/
structure EnginesPayload where
  list : Option (List Engine)
  default : Option String
deriving DecidableEq, Repr

/-- Argument object of `Engines.addEngine` — its fields read with JS
truthiness, so an absent field and an empty string behave alike
(`engine.id || generated`, `engine.icon || fallback`). -/
structure EngineInput where
  id : String
  name : String
  url : String
  icon : String
deriving DecidableEq, Repr

/-- Result triple of a mutating `Engines` operation: the final in-memory
state, the (re)thrown error or returned value, and the storage write the
operation attempted (`none` when it rejected before reaching
storage). -/
def EngOut (α : Type) : Type :=
  EnginesState × Except String α × Option EnginesPayload

/-- The body of `Engines.addEngine(engine)` (engines.js): validate name
and url, require the `%s` placeholder, pick `engine.id ||
custom_<timestamp>` (the generated id is passed in as `genId`), reject a
duplicate id, push the record, then persist `{list}`; on a persistence
failure (`writeOk = false`) pop the pushed record and re-throw. -/
def addEngine (writeOk : Bool) (genId : String) (st : EnginesState)
    (input : EngineInput) : EngOut Engine :=
  if input.name == "" || input.url == "" then
    (st, Except.error "搜索引擎名称和URL不能为空", none)
  else if !strIncludes input.url "%s" then
    (st, Except.error "搜索URL必须包含 %s 作为关键词占位符", none)
  else
    let id := if input.id == "" then genId else input.id
    if (st.engines.find? (fun e => e.id == id)).isSome then
      (st, Except.error "搜索引擎ID已存在", none)
    else
      let newEngine : Engine :=
        ⟨id, input.name, input.url,
         if input.icon == "" then "assets/ui/search.svg" else input.icon⟩
      let payload : EnginesPayload := ⟨some (st.engines ++ [newEngine]), none⟩
      if writeOk then
        (⟨st.engines ++ [newEngine], st.defaultEngineId⟩, Except.ok newEngine, some payload)
      else
        (⟨(st.engines ++ [newEngine]).dropLast, st.defaultEngineId⟩,
         Except.error "write failed", some payload)

/-- Partial update object `{id?, name?, url?, icon?}` spread over an
engine record by `Engines.updateEngine`. -/
structure EngineUpdates where
  id : Option String
  name : Option String
  url : Option String
  icon : Option String
deriving DecidableEq, Repr

/-- Spread `{...oldEngine, ...updates}`. -/
def applyUpdates (old : Engine) (u : EngineUpdates) : Engine :=
  ⟨u.id.getD old.id, u.name.getD old.name, u.url.getD old.url, u.icon.getD old.icon⟩

/-- The body of `Engines.updateEngine(engineId, updates)`: find the
index, validate `updates.url` (only when it is truthy), overwrite the
slot with the spread record, persist `{list}`; on persistence failure
restore the old record in place and re-throw. -/
def updateEngine (writeOk : Bool) (st : EnginesState) (engineId : String)
    (u : EngineUpdates) : EngOut Engine :=
  match st.engines.findIdx? (fun e => e.id == engineId) with
  | none => (st, Except.error "搜索引擎不存在", none)
  | some index =>
    if (match u.url with
        | some s => s != "" && !strIncludes s "%s"
        | none => false) then
      (st, Except.error "搜索URL必须包含 %s 作为关键词占位符", none)
    else
      match st.engines[index]? with
      | none => (st, Except.error "搜索引擎不存在", none)
      | some oldEngine =>
        let updatedEngine := applyUpdates oldEngine u
        let newList := st.engines.set index updatedEngine
        let payload : EnginesPayload := ⟨some newList, none⟩
        if writeOk then
          (⟨newList, st.defaultEngineId⟩, Except.ok updatedEngine, some payload)
        else
          (⟨newList.set index oldEngine, st.defaultEngineId⟩,
           Except.error "write failed", some payload)

/-- JavaScript `array.splice(index, 0, item)`: insert at the index
(appending when the index is at or past the end). -/
def spliceInsert : List Engine → Nat → Engine → List Engine
  | l, 0, e => e :: l
  | [], _ + 1, e => [e]
  | x :: l, n + 1, e => x :: spliceInsert l n e

/-- The body of `Engines.deleteEngine(engineId)`: find the index, splice
the record out, reassign `this.defaultEngineId` to the new first
element's id when the deleted engine was the default and the remaining
list is non-empty, persist `{list, default}`; on persistence failure
splice the record back — the catch block does not touch
`this.defaultEngineId`. -/
def deleteEngine (writeOk : Bool) (st : EnginesState) (engineId : String) :
    EngOut Engine :=
  match st.engines.findIdx? (fun e => e.id == engineId) with
  | none => (st, Except.error "搜索引擎不存在", none)
  | some index =>
    match st.engines[index]? with
    | none => (st, Except.error "搜索引擎不存在", none)
    | some deletedEngine =>
      let newList := st.engines.eraseIdx index
      let newDefault :=
        if st.defaultEngineId == engineId then
          match newList with
          | e :: _ => e.id
          | [] => st.defaultEngineId
        else st.defaultEngineId
      let payload : EnginesPayload := ⟨some newList, some newDefault⟩
      if writeOk then
        (⟨newList, newDefault⟩, Except.ok deletedEngine, some payload)
      else
        (⟨spliceInsert newList index deletedEngine, newDefault⟩,
         Except.error "write failed", some payload)

/-- Loop of `Engines.reorderEngines`: map each id to its engine via
`getEngine` (first match), failing on the first unknown id. -/
def collectEngines (engines : List Engine) : List String → Option (List Engine)
  | [] => some []
  | id :: rest =>
      match engines.find? (fun e => e.id == id) with
      | none => none
      | some e => (collectEngines engines rest).map (fun l => e :: l)

/-- The body of `Engines.reorderEngines(engineIds)`: build the reordered
list, reject an unknown id or a length mismatch, persist `{list}`; on
persistence failure restore the saved copy of the old list. -/
def reorderEngines (writeOk : Bool) (st : EnginesState)
    (engineIds : List String) : EngOut Unit :=
  match collectEngines st.engines engineIds with
  | none => (st, Except.error "搜索引擎不存在", none)
  | some newEngines =>
    if newEngines.length != st.engines.length then
      (st, Except.error "排序列表包含的搜索引擎数量与当前列表不匹配", none)
    else
      let oldEngines := st.engines
      let payload : EnginesPayload := ⟨some newEngines, none⟩
      if writeOk then
        (⟨newEngines, st.defaultEngineId⟩, Except.ok (), some payload)
      else
        (⟨oldEngines, st.defaultEngineId⟩, Except.error "write failed", some payload)

/-- The hard-coded default engine list of `Engines.resetToDefaults`
(engines.js — note its icon urls differ from the storage defaults). -/
def enginesDefaultList : List Engine :=
  [ ⟨"google", "Google", "https://www.google.com/search?q=%s", "https://www.google.com/favicon.ico"⟩,
    ⟨"bing", "Bing", "https://www.bing.com/search?q=%s", "https://www.bing.com/favicon.ico"⟩,
    ⟨"baidu", "百度", "https://www.baidu.com/s?wd=%s", "https://www.baidu.com/favicon.ico"⟩,
    ⟨"duckduckgo", "DuckDuckGo", "https://duckduckgo.com/?q=%s", "https://duckduckgo.com/favicon.ico"⟩ ]

/-- The body of `Engines.resetToDefaults()`: snapshot the state, install
the default list and default id `google`, persist `{list, default}`; on
persistence failure restore both snapshot fields and re-throw. -/
def resetToDefaults (writeOk : Bool) (st : EnginesState) : EngOut Unit :=
  let payload : EnginesPayload := ⟨some enginesDefaultList, some "google"⟩
  if writeOk then
    (⟨enginesDefaultList, "google"⟩, Except.ok (), some payload)
  else
    (⟨st.engines, st.defaultEngineId⟩, Except.error "write failed", some payload)

/-- The body of `Settings.deleteEngine(engineId)` (settings.js — the
settings-panel path): filter the engine out of `this.engines` and
persist only `{list: this.engines}` via
`storageManager.updateCategory('engines', ...)`; the persisted
`engines.default` key is left untouched. -/
def settingsDeleteEngine (st : Option JVal) (engines : List Engine)
    (engineId : String) : Option JVal × List Engine :=
  let newEngines := engines.filter (fun e => e.id != engineId)
  (updateCategory st "engines" [("list", JVal.arr (newEngines.map engineToJVal))],
   newEngines)

/-- In-memory state of the `Search` class (search.js) relevant to engine
cycling and dispatch: `this.engines`, `this.currentEngineIndex`,
`this.tabSwitchEnabled` and `this.openIn`. -/
structure SearchState where
  engines : List Engine
  currentEngineIndex : Nat
  tabSwitchEnabled : Bool
  openIn : String
deriving DecidableEq, Repr

/-- The body of `Search.switchEngine()` (search.js): bail out when Tab
switching is disabled or the list is empty; otherwise advance the index
by `(currentIndex + 1) % length` and call `saveDefaultEngine`, which
persists `{default: currentEngine.id}` when `engines[currentIndex]`
exists.  The second component is the id persisted as `engines.default`
(`none` when nothing was persisted). -/
def switchEngine (st : SearchState) : SearchState × Option String :=
  if !st.tabSwitchEnabled || st.engines.length == 0 then (st, none)
  else
    let newIndex := (st.currentEngineIndex + 1) % st.engines.length
    (⟨st.engines, newIndex, st.tabSwitchEnabled, st.openIn⟩,
     (st.engines[newIndex]?).map Engine.id)

/-- One state step of engine cycling, for iterating `switchEngine`. -/
def switchStep (st : SearchState) : SearchState :=
  (switchEngine st).1

/-- Character class removed by JavaScript `String.prototype.trim` (the
whitespace and line-terminator code points that occur in practice;
`trim` strips a few further exotic Unicode space code points that are
irrelevant to the claims). -/
def isJsWhitespace (c : Char) : Bool :=
  c == ' ' || c == '\t' || c == '\n' || c == '\r' ||
  c.toNat == 11 || c.toNat == 12 || c.toNat == 0xA0 ||
  c.toNat == 0x2028 || c.toNat == 0x2029 || c.toNat == 0xFEFF

/-- Drop leading characters satisfying a predicate. -/
def dropLeading (p : Char → Bool) : List Char → List Char
  | [] => []
  | c :: rest => if p c then dropLeading p rest else c :: rest

/-- JavaScript `s.trim()`. -/
def jsTrim (s : String) : String :=
  String.mk ((dropLeading isJsWhitespace
    (dropLeading isJsWhitespace s.data).reverse).reverse)

/-- Characters left unescaped by `encodeURIComponent`:
`A-Z a-z 0-9 - _ . ! ~ * ' ( )`. -/
def isUnreservedChar (c : Char) : Bool :=
  (('A' ≤ c && c ≤ 'Z') || ('a' ≤ c && c ≤ 'z') || ('0' ≤ c && c ≤ '9')) ||
  c == '-' || c == '_' || c == '.' || c == '!' || c == '~' || c == '*' ||
  c == '\'' || c == '(' || c == ')'

/-- Uppercase hexadecimal digit. -/
def hexDigitChar (n : Nat) : Char :=
  if n < 10 then Char.ofNat (48 + n) else Char.ofNat (55 + n)

/-- UTF-8 bytes of a Unicode scalar value (JavaScript strings are
UTF-16, but `encodeURIComponent` encodes whole code points, which is
exactly what a Lean `Char` is; lone surrogates raise `URIError` and
cannot be produced by a `Char`). -/
def utf8BytesOfChar (c : Char) : List Nat :=
  let n := c.toNat
  if n < 0x80 then [n]
  else if n < 0x800 then [0xC0 + n / 0x40, 0x80 + n % 0x40]
  else if n < 0x10000 then
    [0xE0 + n / 0x1000, 0x80 + (n / 0x40) % 0x40, 0x80 + n % 0x40]
  else
    [0xF0 + n / 0x40000, 0x80 + (n / 0x1000) % 0x40,
     0x80 + (n / 0x40) % 0x40, 0x80 + n % 0x40]

/-- Percent-escape of one byte, e.g. `%20`. -/
def percentByte (b : Nat) : List Char :=
  ['%', hexDigitChar (b / 16), hexDigitChar (b % 16)]

/-- Character-list worker for `encodeURIComponent`. -/
def encodeURIChars : List Char → List Char
  | [] => []
  | c :: rest =>
      (if isUnreservedChar c then [c]
       else List.flatten ((utf8BytesOfChar c).map percentByte)) ++ encodeURIChars rest

/-- JavaScript `encodeURIComponent(s)`. -/
def encodeURIComponent (s : String) : String :=
  String.mk (encodeURIChars s.data)

/-- Outcome of a search dispatch: nothing, navigate the current view
(`window.location.href = url`), or open a new view
(`window.open(url, _blank)`). -/
inductive NavAction : Type where
  | noNav : NavAction
  | navigateCurrent : String → NavAction
  | openNew : String → NavAction
deriving DecidableEq, Repr

/-- The body of `Search.performSearch()` (search.js): trim the input;
bail out on an empty query or a missing current engine; build the url by
replacing the first `%s` of the engine's template with the
percent-encoded query; navigate the current tab when `openIn` is
`current-tab`, otherwise open a new tab. -/
def performSearch (st : SearchState) (inputValue : String) : NavAction :=
  let query := jsTrim inputValue
  if query == "" then NavAction.noNav
  else
    match st.engines[st.currentEngineIndex]? with
    | none => NavAction.noNav
    | some currentEngine =>
      let searchUrl := replaceFirstStr currentEngine.url "%s" (encodeURIComponent query)
      if st.openIn == "current-tab" then NavAction.navigateCurrent searchUrl
      else NavAction.openNew searchUrl

/-- JavaScript `Math.round` on a rational: round half toward positive
infinity. -/
def jsRound (q : ℚ) : ℤ :=
  ⌊q + 1 / 2⌋

/-- Pixel values written by `App.updateSearchHeight(height)` (main.js):
the container height and the three derived values. -/
structure SearchBoxStyle where
  heightPx : ℚ
  iconSizePx : ℤ
  iconMarginPx : ℤ
  fontSizePx : ℤ
deriving DecidableEq, Repr

/-- The derived-value computation of `App.updateSearchHeight(height)`:
`iconSize = Math.round(height * 0.4)`, `iconMargin = Math.round(height *
0.3)`, `fontSize = Math.round(height * 0.32)` (numbers as exact
rationals; for the integer heights the UI produces, double rounding
never crosses a half-integer boundary differently). -/
def updateSearchHeight (height : ℚ) : SearchBoxStyle :=
  ⟨height, jsRound (height * 0.4), jsRound (height * 0.3), jsRound (height * 0.32)⟩

/-! Basic lemmas about object field lists. -/

theorem lookupField_setField_self (fs : List (String × JVal)) (k : String) (v : JVal) :
    lookupField (setField fs k v) k = some v := by
  induction fs with
  | nil => simp [setField, lookupField]
  | cons hd tl ih =>
      obtain ⟨k1, w⟩ := hd
      by_cases h : k1 = k
      · simp [setField, h, lookupField]
      · simp [setField, h, lookupField, ih]

theorem lookupField_setField_ne (fs : List (String × JVal)) (k k' : String) (v : JVal)
    (h : k' ≠ k) : lookupField (setField fs k v) k' = lookupField fs k' := by
  induction fs with
  | nil => simp [setField, lookupField, if_neg (Ne.symm h)]
  | cons hd tl ih =>
      obtain ⟨k1, w⟩ := hd
      by_cases hk : k1 = k
      · subst hk
        simp [setField, lookupField, if_neg (Ne.symm h)]
      · simp only [setField, if_neg hk, lookupField]
        by_cases hk' : k1 = k'
        · simp [hk']
        · simp [hk', ih]

theorem lookupField_append (a b : List (String × JVal)) (k : String) :
    lookupField (a ++ b) k =
      (match lookupField a k with
       | some v => some v
       | none => lookupField b k) := by
  induction a with
  | nil => simp [lookupField]
  | cons hd tl ih =>
      obtain ⟨k1, w⟩ := hd
      by_cases h : k1 = k
      · simp [lookupField, h]
      · simp [lookupField, h, ih]

theorem setField_fresh (fs : List (String × JVal)) (k : String) (v : JVal)
    (h : lookupField fs k = none) : setField fs k v = fs ++ [(k, v)] := by
  induction fs with
  | nil => simp [setField]
  | cons hd tl ih =>
      obtain ⟨k1, w⟩ := hd
      by_cases hk : k1 = k
      · simp [lookupField, hk] at h
      · simp only [lookupField, if_neg hk] at h
        simp [setField, hk, ih h]

theorem lookupField_none_key_ne (fs : List (String × JVal)) (k k' : String) (v : JVal)
    (h : lookupField fs k = none) (hmem : (k', v) ∈ fs) : k' ≠ k := by
  induction fs with
  | nil => simp at hmem
  | cons hd tl ih =>
      obtain ⟨k1, w⟩ := hd
      by_cases hk : k1 = k
      · simp [lookupField, hk] at h
      · simp only [lookupField, if_neg hk] at h
        rcases List.mem_cons.mp hmem with h1 | h1
        · cases h1; exact hk
        · exact ih h h1

theorem shallowMerge_disjoint (b : List (String × JVal)) :
    ∀ a, keysNodupB b = true →
      (∀ k v, (k, v) ∈ b → lookupField a k = none) →
      shallowMerge a b = a ++ b := by
  induction b with
  | nil => intro a _ _; simp [shallowMerge]
  | cons hd tl ih =>
      intro a hnd hfresh
      obtain ⟨k, v⟩ := hd
      simp only [keysNodupB, Bool.and_eq_true, Option.isNone_iff_eq_none] at hnd
      have hka : lookupField a k = none := hfresh k v (List.mem_cons_self _ _)
      have hset : setField a k v = a ++ [(k, v)] := setField_fresh a k v hka
      have : shallowMerge (setField a k v) tl = (a ++ [(k, v)]) ++ tl := by
        rw [hset]
        refine ih (a ++ [(k, v)]) hnd.2 ?_
        intro k' v' hmem
        have hk' : k' ≠ k := lookupField_none_key_ne tl k k' v' hnd.1 hmem
        rw [lookupField_append]
        rw [hfresh k' v' (List.mem_cons_of_mem _ hmem)]
        simp [lookupField, if_neg (Ne.symm hk')]
      simpa [shallowMerge, List.append_assoc] using this

/-- Claim C10: on an empty store, `updateCategory(cat, updates)`
persists a document whose only top-level key is `cat`, holding exactly
the update object; the other categories are not filled in from defaults,
so the persisted document can durably lack category keys. -/
theorem updateCategory_empty_store_only_cat (cat : String)
    (updates : List (String × JVal)) (h : keysNodupB updates = true) :
    updateCategory none cat updates = some (JVal.obj [(cat, JVal.obj updates)]) := by
  unfold updateCategory
  simp only [lookupField, spreadFields, setField]
  rw [shallowMerge_disjoint updates [] h (by intro k v _; rfl)]
  simp

/-- Witness for C10 at a concrete single-key update. -/
theorem updateCategory_empty_store_only_cat_witness :
    keysNodupB [("mode", JVal.str "dark")] = true ∧
    updateCategory none "theme" [("mode", JVal.str "dark")] =
      some (JVal.obj [("theme", JVal.obj [("mode", JVal.str "dark")])]) :=
  ⟨rfl, updateCategory_empty_store_only_cat "theme" [("mode", JVal.str "dark")] rfl⟩

/-- Counterexample to claim C2: a persisted document that exists but
lacks the `theme` key makes `getCategory('theme')` return `undefined`
(`none`), not the default slice `{mode: 'system'}`. -/
theorem getCategory_missing_key_counterexample :
    getCategory (Except.ok (some (JVal.obj [("general", JVal.obj [])]))) "theme" = none ∧
    lookupField defaultSettingsFields "theme" =
      some (JVal.obj [("mode", JVal.str "system")]) :=
  ⟨rfl, rfl⟩

/-- Claim C2 as amended: `getCategory` returns the default slice on an
empty store and on a read failure, and after `init()` on an empty store
`getCategory('theme')` reads `{mode: 'system'}` back from the freshly
written defaults; but when a (truthy) persisted document exists and
merely lacks the category key, `getCategory` surfaces `undefined`
instead of the default slice. -/
theorem getCategory_fallback_amended :
    (∀ e cat, getCategory (Except.error e) cat = lookupField defaultSettingsFields cat)
  ∧ (∀ cat, getCategory (Except.ok none) cat = lookupField defaultSettingsFields cat)
  ∧ getCategory (Except.ok (storageInit none).1) "theme" =
      some (JVal.obj [("mode", JVal.str "system")])
  ∧ getCategory (Except.ok (some (JVal.obj [("general", JVal.obj [])]))) "theme" = none :=
  ⟨fun _ _ => rfl, fun _ => rfl, rfl, rfl⟩

/-- Claim C3: for a stored document whose category `cat` is an object
(or absent), `updateCategory(cat, {k: v})` followed by
`getCategory(cat)` yields a slice where `k = v`, every other
pre-existing key of the category is unchanged, and every other top-level
category is unchanged; the merge is shallow, so the whole value `v`
(even an object) replaces the old value of `k` wholesale. -/
theorem updateCategory_then_getCategory (fs catFs : List (String × JVal))
    (cat k : String) (v : JVal)
    (hcat : lookupField fs cat = some (JVal.obj catFs) ∨
            (lookupField fs cat = none ∧ catFs = [])) :
    updateCategory (some (JVal.obj fs)) cat [(k, v)] =
      some (JVal.obj (setField fs cat (JVal.obj (setField catFs k v)))) ∧
    getCategory (Except.ok (updateCategory (some (JVal.obj fs)) cat [(k, v)])) cat =
      some (JVal.obj (setField catFs k v)) ∧
    lookupField (setField catFs k v) k = some v ∧
    (∀ k', k' ≠ k → lookupField (setField catFs k v) k' = lookupField catFs k') ∧
    (∀ cat', cat' ≠ cat →
       lookupField (setField fs cat (JVal.obj (setField catFs k v))) cat' =
         lookupField fs cat') := by
  have hcatFields : spreadFields (lookupField fs cat) = catFs := by
    rcases hcat with h | ⟨h, rfl⟩ <;> rw [h] <;> rfl
  have hupd : updateCategory (some (JVal.obj fs)) cat [(k, v)] =
      some (JVal.obj (setField fs cat (JVal.obj (setField catFs k v)))) := by
    show some (JVal.obj (setField fs cat
        (JVal.obj (shallowMerge (spreadFields (lookupField fs cat)) [(k, v)])))) = _
    rw [hcatFields]
    rfl
  refine ⟨hupd, ?_, lookupField_setField_self _ _ _,
          fun k' hk' => lookupField_setField_ne _ _ _ _ hk',
          fun cat' hcat' => lookupField_setField_ne _ _ _ _ hcat'⟩
  rw [hupd]
  show jsGet (JVal.obj (setField fs cat (JVal.obj (setField catFs k v)))) cat = _
  exact lookupField_setField_self _ _ _

/-- Witness for C3 at a concrete document and update. -/
theorem updateCategory_then_getCategory_witness :
    lookupField [("general", JVal.obj [("searchWidth", JVal.num 40)]),
                 ("theme", JVal.obj [("mode", JVal.str "system")])] "general" =
      some (JVal.obj [("searchWidth", JVal.num 40)]) ∧
    getCategory (Except.ok (updateCategory
        (some (JVal.obj [("general", JVal.obj [("searchWidth", JVal.num 40)]),
                         ("theme", JVal.obj [("mode", JVal.str "system")])]))
        "general" [("searchOpacity", JVal.num 0.5)])) "general" =
      some (JVal.obj [("searchWidth", JVal.num 40), ("searchOpacity", JVal.num 0.5)]) := by
  refine ⟨rfl, ?_⟩
  have h := (updateCategory_then_getCategory
      [("general", JVal.obj [("searchWidth", JVal.num 40)]),
       ("theme", JVal.obj [("mode", JVal.str "system")])]
      [("searchWidth", JVal.num 40)] "general" "searchOpacity" (JVal.num 0.5)
      (Or.inl rfl)).2.1
  exact h

/-- Claim C8: the search-box derived values are a pure function of the
height alone, with exactly the constants 0.4, 0.3 and 0.32 (as exact
rationals), and at height 50 they are icon size 20, icon margin 15 and
font size 16. -/
theorem updateSearchHeight_constants :
    (∀ h : ℚ, (updateSearchHeight h).iconSizePx = jsRound (h * (2 / 5)) ∧
       (updateSearchHeight h).iconMarginPx = jsRound (h * (3 / 10)) ∧
       (updateSearchHeight h).fontSizePx = jsRound (h * (8 / 25)))
  ∧ (updateSearchHeight 50).iconSizePx = 20
  ∧ (updateSearchHeight 50).iconMarginPx = 15
  ∧ (updateSearchHeight 50).fontSizePx = 16 := by
  refine ⟨fun h => ⟨?_, ?_, ?_⟩, ?_, ?_, ?_⟩ <;>
    norm_num [updateSearchHeight, jsRound]

theorem switchStep_formula (st : SearchState) (hts : st.tabSwitchEnabled = true)
    (hlen : 0 < st.engines.length) :
    switchStep st = ⟨st.engines, (st.currentEngineIndex + 1) % st.engines.length,
                     st.tabSwitchEnabled, st.openIn⟩ := by
  have hz : (st.engines.length == 0) = false := by
    simp [Nat.pos_iff_ne_zero.mp hlen]
  unfold switchStep switchEngine
  rw [hts, hz]
  rfl

theorem switchStep_iterate (st : SearchState) (hts : st.tabSwitchEnabled = true)
    (hlen : 0 < st.engines.length) (k : Nat) :
    switchStep^[k + 1] st =
      ⟨st.engines, (st.currentEngineIndex + (k + 1)) % st.engines.length,
       st.tabSwitchEnabled, st.openIn⟩ := by
  induction k with
  | zero => simpa using switchStep_formula st hts hlen
  | succ m ih =>
      rw [Function.iterate_succ_apply', ih,
          switchStep_formula
            ⟨st.engines, (st.currentEngineIndex + (m + 1)) % st.engines.length,
             st.tabSwitchEnabled, st.openIn⟩ hts (by simpa using hlen)]
      simp only [SearchState.mk.injEq, true_and, and_true]
      rw [Nat.mod_add_mod, Nat.add_assoc]

/-- Claim C6: engine cycling with Tab switching enabled is the total
wrapping successor `(currentIndex + 1) % length` — starting from any
valid index, `length` consecutive cycles return the state to exactly
where it started; cycling is a no-op on an empty list; and each single
cycle persists the newly selected engine's id as `engines.default`. -/
theorem switchEngine_cycling (st : SearchState) :
    (st.tabSwitchEnabled = true → st.currentEngineIndex < st.engines.length →
       switchStep^[st.engines.length] st = st)
  ∧ (st.engines = [] → switchEngine st = (st, none))
  ∧ (st.tabSwitchEnabled = true → 0 < st.engines.length →
       ∃ e, st.engines[(st.currentEngineIndex + 1) % st.engines.length]? = some e ∧
         switchEngine st =
           (⟨st.engines, (st.currentEngineIndex + 1) % st.engines.length,
             st.tabSwitchEnabled, st.openIn⟩, some e.id)) := by
  refine ⟨?_, ?_, ?_⟩
  · intro hts hidx
    have hlen : 0 < st.engines.length := Nat.lt_of_le_of_lt (Nat.zero_le _) hidx
    obtain ⟨m, hm⟩ : ∃ m, st.engines.length = m + 1 :=
      ⟨st.engines.length - 1, by omega⟩
    rw [hm, switchStep_iterate st hts hlen m, ← hm]
    have : (st.currentEngineIndex + st.engines.length) % st.engines.length =
        st.currentEngineIndex := by
      rw [Nat.add_mod_right]
      exact Nat.mod_eq_of_lt hidx
    rw [this]
  · intro hempty
    unfold switchEngine
    rw [hempty]
    simp
  · intro hts hlen
    have hmod : (st.currentEngineIndex + 1) % st.engines.length < st.engines.length :=
      Nat.mod_lt _ hlen
    obtain ⟨e, he⟩ : ∃ e,
        st.engines[(st.currentEngineIndex + 1) % st.engines.length]? = some e := by
      rw [List.getElem?_eq_getElem hmod]
      exact ⟨_, rfl⟩
    refine ⟨e, he, ?_⟩
    have hz : (st.engines.length == 0) = false := by
      simp [Nat.pos_iff_ne_zero.mp hlen]
    unfold switchEngine
    rw [hts, hz]
    simp [he]

/-- Witness for C6 at a concrete three-engine state starting at index 2:
three cycles return to the start, one cycle lands on index 0 and
persists that engine's id, and the empty list is a no-op. -/
theorem switchEngine_cycling_witness :
    (⟨enginesDefaultList.take 3, 2, true, "new-tab"⟩ : SearchState).tabSwitchEnabled = true ∧
    2 < (enginesDefaultList.take 3).length ∧
    switchStep^[3] (⟨enginesDefaultList.take 3, 2, true, "new-tab"⟩ : SearchState) =
      ⟨enginesDefaultList.take 3, 2, true, "new-tab"⟩ ∧
    switchEngine ⟨[], 0, true, "new-tab"⟩ = (⟨[], 0, true, "new-tab"⟩, none) ∧
    (switchEngine ⟨enginesDefaultList.take 3, 2, true, "new-tab"⟩).2 = some "google" := by
  refine ⟨rfl, by decide, ?_, ?_, by decide⟩
  · exact (switchEngine_cycling ⟨enginesDefaultList.take 3, 2, true, "new-tab"⟩).1
      rfl (by decide)
  · exact (switchEngine_cycling ⟨[], 0, true, "new-tab"⟩).2.1 rfl

/-! Helper lemmas for the engine-registry mutators. -/

theorem set_getElem?_self (l : List Engine) :
    ∀ (n : Nat) (v : Engine), l[n]? = some v → l.set n v = l := by
  induction l with
  | nil => intro n v h; simp at h
  | cons a tl ih =>
      intro n v h
      cases n with
      | zero =>
          simp only [List.getElem?_cons_zero, Option.some.injEq] at h
          subst h
          rfl
      | succ m =>
          simp only [List.getElem?_cons_succ] at h
          simp [List.set_cons_succ, ih m v h]

theorem spliceInsert_eraseIdx (l : List Engine) :
    ∀ (n : Nat) (v : Engine), l[n]? = some v →
      spliceInsert (l.eraseIdx n) n v = l := by
  induction l with
  | nil => intro n v h; simp at h
  | cons a tl ih =>
      intro n v h
      cases n with
      | zero =>
          simp only [List.getElem?_cons_zero, Option.some.injEq] at h
          subst h
          cases tl <;> rfl
      | succ m =>
          simp only [List.getElem?_cons_succ] at h
          show spliceInsert (a :: tl.eraseIdx m) (m + 1) v = a :: tl
          rw [spliceInsert, ih m v h]

theorem findIdx?_getElem (p : Engine → Bool) (l : List Engine) :
    ∀ i, l.findIdx? p = some i → ∃ x, l[i]? = some x ∧ p x = true := by
  induction l with
  | nil => intro i h; simp at h
  | cons a tl ih =>
      intro i h
      rw [List.findIdx?_cons] at h
      by_cases hp : p a
      · rw [if_pos hp] at h
        cases h
        exact ⟨a, by simp, hp⟩
      · rw [if_neg hp, List.findIdx?_succ] at h
        cases hidx : tl.findIdx? p with
        | none => rw [hidx] at h; simp at h
        | some j =>
            rw [hidx] at h
            simp only [Option.map_some', Option.some.injEq] at h
            subst h
            obtain ⟨x, hx, hpx⟩ := ih j hidx
            exact ⟨x, by simpa using hx, hpx⟩

theorem mem_eraseIdx_of_ne (l : List Engine) :
    ∀ (i : Nat) (e v : Engine), e ∈ l → l[i]? = some v → e ≠ v →
      e ∈ l.eraseIdx i := by
  induction l with
  | nil => intro i e v he; simp at he
  | cons a tl ih =>
      intro i e v he hv hne
      cases i with
      | zero =>
          simp only [List.getElem?_cons_zero, Option.some.injEq] at hv
          subst hv
          rcases List.mem_cons.mp he with h | h
          · exact absurd h hne
          · simpa [List.eraseIdx] using h
      | succ m =>
          simp only [List.getElem?_cons_succ] at hv
          rcases List.mem_cons.mp he with h | h
          · subst h; simp [List.eraseIdx]
          · simp only [List.eraseIdx]
            exact List.mem_cons_of_mem _ (ih m e v h hv hne)

/-- Counterexample to claim C5: `Engines.deleteEngine` with a failing
persistence write restores the engines list but not `defaultEngineId` —
deleting the default engine `google` from `[google, bing]` under a write
failure leaves the in-memory default as `bing`, not the pre-mutation
snapshot value `google`. -/
theorem deleteEngine_rollback_counterexample :
    (deleteEngine false ⟨enginesDefaultList.take 2, "google"⟩ "google").1 =
      ⟨enginesDefaultList.take 2, "bing"⟩ ∧
    (deleteEngine false ⟨enginesDefaultList.take 2, "google"⟩ "google").1 ≠
      ⟨enginesDefaultList.take 2, "google"⟩ := by
  exact ⟨by decide, by decide⟩

/-- Claim C5 as amended: every mutating registry operation under a
failing persistence write re-throws an error and restores the engines
list to the pre-mutation snapshot; `addEngine`, `updateEngine`,
`reorderEngines` and `resetToDefaults` restore the entire state
(including `defaultEngineId`), while `deleteEngine` restores only the
list — its catch block does not restore `defaultEngineId`. -/
theorem mutators_rollback :
    (∀ genId st input, (addEngine false genId st input).1 = st ∧
       ∃ m, (addEngine false genId st input).2.1 = Except.error m)
  ∧ (∀ st engineId u, (updateEngine false st engineId u).1 = st ∧
       ∃ m, (updateEngine false st engineId u).2.1 = Except.error m)
  ∧ (∀ st ids, (reorderEngines false st ids).1 = st ∧
       ∃ m, (reorderEngines false st ids).2.1 = Except.error m)
  ∧ (∀ st, (resetToDefaults false st).1 = st ∧
       ∃ m, (resetToDefaults false st).2.1 = Except.error m)
  ∧ (∀ st engineId, ((deleteEngine false st engineId).1).engines = st.engines ∧
       ∃ m, (deleteEngine false st engineId).2.1 = Except.error m) := by
  refine ⟨?_, ?_, ?_, ?_, ?_⟩
  · intro genId st input
    by_cases h1 : (input.name == "" || input.url == "") = true
    · simp [addEngine, h1]
    · by_cases h2 : strIncludes input.url "%s"
      · by_cases h3 : ∃ x ∈ st.engines, x.id = if input.id = "" then genId else input.id
        · simp [addEngine, h1, h2, h3]
        · simp [addEngine, h1, h2, h3, List.dropLast_concat]
      · simp [addEngine, h1, h2]
  · intro st engineId u
    cases hidx : st.engines.findIdx? (fun e => e.id == engineId) with
    | none => simp [updateEngine, hidx]
    | some index =>
        by_cases hval : (match u.url with
            | some s => s != "" && !strIncludes s "%s"
            | none => false) = true
        · simp [updateEngine, hidx, hval]
        · cases hget : st.engines[index]? with
          | none => simp [updateEngine, hidx, hval, hget]
          | some oldEngine =>
              have hset := set_getElem?_self st.engines index oldEngine hget
              simp [updateEngine, hidx, hval, hget, List.set_set, hset]
  · intro st ids
    cases hc : collectEngines st.engines ids with
    | none => simp [reorderEngines, hc]
    | some newEngines =>
        by_cases hlen : (newEngines.length != st.engines.length) = true
        · simp [reorderEngines, hc, hlen]
        · simp [reorderEngines, hc, hlen]
  · intro st
    simp [resetToDefaults]
  · intro st engineId
    cases hidx : st.engines.findIdx? (fun e => e.id == engineId) with
    | none => simp [deleteEngine, hidx]
    | some index =>
        cases hget : st.engines[index]? with
        | none => simp [deleteEngine, hidx, hget]
        | some deletedEngine =>
            have hsp := spliceInsert_eraseIdx st.engines index deletedEngine hget
            simp [deleteEngine, hidx, hget, hsp]

/-- Claim C7: `Engines.addEngine` rejects — synchronously, before any
mutation — an engine whose url lacks the `%s` placeholder, and an engine
whose (explicit or generated) id already exists in the list; in both
rejection cases the returned in-memory state is exactly the input state
and no storage write is attempted (third component `none`), so the
persisted `engines.list` is untouched. -/
theorem addEngine_rejects (writeOk : Bool) (genId : String) (st : EnginesState)
    (input : EngineInput) :
    (input.name ≠ "" → input.url ≠ "" → strIncludes input.url "%s" = false →
       addEngine writeOk genId st input =
         (st, Except.error "搜索URL必须包含 %s 作为关键词占位符", none))
  ∧ (input.name ≠ "" → input.url ≠ "" → strIncludes input.url "%s" = true →
     (∃ x ∈ st.engines, x.id = if input.id = "" then genId else input.id) →
       addEngine writeOk genId st input = (st, Except.error "搜索引擎ID已存在", none)) := by
  constructor
  · intro hn hu hinc
    simp [addEngine, hn, hu, hinc]
  · intro hn hu hinc hdup
    simp [addEngine, hn, hu, hinc, hdup]

/-- Witness for C7: a url without the placeholder and a duplicate id
`google` are both rejected on the default registry state. -/
theorem addEngine_rejects_witness :
    (("Test" : String) ≠ "" ∧ ("https://x.example/?q=QUERY" : String) ≠ "" ∧
       strIncludes "https://x.example/?q=QUERY" "%s" = false ∧
       addEngine true "custom_1" ⟨enginesDefaultList, "google"⟩
           ⟨"", "Test", "https://x.example/?q=QUERY", ""⟩ =
         (⟨enginesDefaultList, "google"⟩,
          Except.error "搜索URL必须包含 %s 作为关键词占位符", none))
  ∧ (strIncludes "https://x.example/?q=%s" "%s" = true ∧
       (∃ x ∈ (⟨enginesDefaultList, "google"⟩ : EnginesState).engines,
          x.id = if ("google" : String) = "" then "custom_1" else "google") ∧
       addEngine true "custom_1" ⟨enginesDefaultList, "google"⟩
           ⟨"google", "G2", "https://x.example/?q=%s", ""⟩ =
         (⟨enginesDefaultList, "google"⟩, Except.error "搜索引擎ID已存在", none)) := by
  refine ⟨⟨by decide, by decide, by decide, ?_⟩, by decide, by decide, ?_⟩
  · exact (addEngine_rejects true "custom_1" ⟨enginesDefaultList, "google"⟩
      ⟨"", "Test", "https://x.example/?q=QUERY", ""⟩).1 (by decide) (by decide) (by decide)
  · exact (addEngine_rejects true "custom_1" ⟨enginesDefaultList, "google"⟩
      ⟨"google", "G2", "https://x.example/?q=%s", ""⟩).2 (by decide) (by decide)
      (by decide) (by decide)

/-- Engine records used in concrete scenarios (the two first default
engines, as persisted by storage.js defaults they appear in
engines.js's `resetToDefaults` flavour with favicon urls). -/
def demoGoogle : Engine :=
  ⟨"google", "Google", "https://www.google.com/search?q=%s", "https://www.google.com/favicon.ico"⟩

/-- Second demo engine record. -/
def demoBing : Engine :=
  ⟨"bing", "Bing", "https://www.bing.com/search?q=%s", "https://www.bing.com/favicon.ico"⟩

/-- Counterexample to claim C4: the settings panel's
`Settings.deleteEngine` mutates the engines category without reassigning
`engines.default` — deleting the current default `google` persists a
document whose `engines.default` is still `google` while `engines.list`
holds only `bing`, so the persisted default no longer resolves to any
entry of the persisted list. -/
theorem settingsDeleteEngine_dangling_default :
    settingsDeleteEngine
        (some (JVal.obj [("engines", JVal.obj
          [("default", JVal.str "google"),
           ("list", JVal.arr [engineToJVal demoGoogle, engineToJVal demoBing])])]))
        [demoGoogle, demoBing] "google" =
      (some (JVal.obj [("engines", JVal.obj
          [("default", JVal.str "google"),
           ("list", JVal.arr [engineToJVal demoBing])])]),
       [demoBing]) ∧
    "google" ∉ [demoBing].map Engine.id := by
  exact ⟨rfl, by decide⟩

/-- Claim C4 as amended: the `Engines` class's `deleteEngine` preserves
the invariant — after a successful delete, `defaultEngineId` resolves to
an entry of the remaining list whenever it did before and the remaining
list is non-empty, and deleting the current default reassigns it to the
new first element's id; but the settings panel's `Settings.deleteEngine`
persists only the filtered list and can leave the stored
`engines.default` dangling. -/
theorem deleteEngine_preserves_default (st : EnginesState) (engineId : String)
    (hmem : st.defaultEngineId ∈ st.engines.map Engine.id)
    (hne : ((deleteEngine true st engineId).1).engines ≠ []) :
    ((deleteEngine true st engineId).1).defaultEngineId ∈
      ((deleteEngine true st engineId).1).engines.map Engine.id ∧
    (st.defaultEngineId = engineId →
       ∃ e rest, ((deleteEngine true st engineId).1).engines = e :: rest ∧
         ((deleteEngine true st engineId).1).defaultEngineId = e.id) := by
  cases hidx : st.engines.findIdx? (fun e => e.id == engineId) with
  | none =>
      have hstate : (deleteEngine true st engineId).1 = st := by
        simp [deleteEngine, hidx]
      rw [hstate]
      refine ⟨hmem, fun hdef => ?_⟩
      obtain ⟨x, hxmem, hxid⟩ := List.mem_map.mp hmem
      have hall := List.findIdx?_eq_none_iff.mp hidx x hxmem
      rw [hxid, hdef] at hall
      simp at hall
  | some index =>
      cases hget : st.engines[index]? with
      | none =>
          obtain ⟨x, hx, _⟩ := findIdx?_getElem _ st.engines index hidx
          rw [hget] at hx
          cases hx
      | some del =>
          have heq : (deleteEngine true st engineId).1 =
              ⟨st.engines.eraseIdx index,
               if st.defaultEngineId == engineId then
                 (match st.engines.eraseIdx index with
                  | e :: _ => e.id
                  | [] => st.defaultEngineId)
               else st.defaultEngineId⟩ := by
            simp [deleteEngine, hidx, hget]
          rw [heq] at hne ⊢
          dsimp only at hne ⊢
          by_cases hdef : st.defaultEngineId == engineId
          · rw [if_pos hdef]
            cases hnl : st.engines.eraseIdx index with
            | nil => exact absurd hnl hne
            | cons e rest =>
                exact ⟨List.mem_map.mpr ⟨e, List.mem_cons_self e rest, rfl⟩,
                       fun _ => ⟨e, rest, rfl, rfl⟩⟩
          · rw [if_neg hdef]
            refine ⟨?_, fun hd => absurd (beq_iff_eq.mpr hd) hdef⟩
            obtain ⟨x, hxmem, hxid⟩ := List.mem_map.mp hmem
            obtain ⟨y, hy, hpy⟩ := findIdx?_getElem _ st.engines index hidx
            rw [hget] at hy
            cases hy
            have hdelid : del.id = engineId := beq_iff_eq.mp hpy
            have hxne : x ≠ del := by
              intro hcontra
              apply hdef
              rw [← hxid, hcontra, hdelid]
              exact beq_iff_eq.mpr rfl
            exact List.mem_map.mpr
              ⟨x, mem_eraseIdx_of_ne st.engines index x del hxmem hget hxne, hxid⟩

/-- Witness for C4 at a two-engine registry: deleting the default
`google` succeeds and the new default `bing` resolves to the remaining
list's first entry. -/
theorem deleteEngine_preserves_default_witness :
    ("google" ∈ [demoGoogle, demoBing].map Engine.id) ∧
    ((deleteEngine true ⟨[demoGoogle, demoBing], "google"⟩ "google").1).engines ≠ [] ∧
    ((deleteEngine true ⟨[demoGoogle, demoBing], "google"⟩ "google").1).defaultEngineId ∈
      ((deleteEngine true ⟨[demoGoogle, demoBing], "google"⟩ "google").1).engines.map
        Engine.id := by
  refine ⟨by decide, by decide, ?_⟩
  exact (deleteEngine_preserves_default ⟨[demoGoogle, demoBing], "google"⟩ "google"
    (by decide) (by decide)).1

/-- Claim C9: for every current engine url template and every input
whose trimmed query is non-empty, `performSearch` builds the target url
by replacing the first `%s` occurrence of the template with the
`encodeURIComponent`-encoded trimmed query, then navigates the current
view when the stored `openIn` preference is `current-tab` and opens a
new view otherwise. -/
theorem performSearch_dispatch (st : SearchState) (inputValue : String) (e : Engine)
    (hq : jsTrim inputValue ≠ "") (he : st.engines[st.currentEngineIndex]? = some e) :
    performSearch st inputValue =
      (if st.openIn = "current-tab" then
        NavAction.navigateCurrent
          (replaceFirstStr e.url "%s" (encodeURIComponent (jsTrim inputValue)))
      else
        NavAction.openNew
          (replaceFirstStr e.url "%s" (encodeURIComponent (jsTrim inputValue)))) := by
  have hq' : (jsTrim inputValue == "") = false := by
    simp [hq]
  by_cases ho : st.openIn = "current-tab"
  · simp [performSearch, he, hq', ho]
  · simp [performSearch, he, hq', ho]

/-- Witness for C9: a template with two `%s` tokens has only the first
replaced, the query `" a b "` is trimmed and percent-encoded to
`a%20b`, and `current-tab` dispatch navigates the current view. -/
theorem performSearch_dispatch_witness :
    jsTrim " a b " ≠ "" ∧
    ((⟨[⟨"demo", "Demo", "https://d.example/s?q=%s&r=%s", "icon.svg"⟩], 0, true,
        "current-tab"⟩ : SearchState).engines[0]? =
      some ⟨"demo", "Demo", "https://d.example/s?q=%s&r=%s", "icon.svg"⟩) ∧
    performSearch ⟨[⟨"demo", "Demo", "https://d.example/s?q=%s&r=%s", "icon.svg"⟩], 0,
        true, "current-tab"⟩ " a b " =
      NavAction.navigateCurrent "https://d.example/s?q=a%20b&r=%s" := by
  refine ⟨by decide, by decide, ?_⟩
  rw [performSearch_dispatch
      ⟨[⟨"demo", "Demo", "https://d.example/s?q=%s&r=%s", "icon.svg"⟩], 0, true,
        "current-tab"⟩ " a b "
      ⟨"demo", "Demo", "https://d.example/s?q=%s&r=%s", "icon.svg"⟩
      (by decide) (by decide)]
  decide

/-! Lemmas characterising the `deepMerge` loop key-by-key. -/

theorem mergedEntryVal_obj_obj (ssub vfs : List (String × JVal)) :
    mergedEntryVal (some (JVal.obj ssub)) (JVal.obj vfs) =
      JVal.obj (deepMergeFields ssub vfs) := by
  simp [mergedEntryVal, truthy]

theorem mergedEntryVal_nonobj (t? : Option JVal) (v : JVal)
    (h : isObjB v = false) : mergedEntryVal t? v = v := by
  cases v with
  | obj fs => simp [isObjB] at h
  | null => simp [mergedEntryVal]
  | bool b => simp [mergedEntryVal]
  | num q => simp [mergedEntryVal]
  | str s => simp [mergedEntryVal]
  | arr xs => simp [mergedEntryVal]

theorem lookup_deepMergeFields_none (dfs : List (String × JVal)) :
    ∀ (tfs : List (String × JVal)) (k : String), lookupField dfs k = none →
      lookupField (deepMergeFields tfs dfs) k = lookupField tfs k := by
  induction dfs with
  | nil => intro tfs k _; rw [deepMergeFields]
  | cons hd rest ih =>
      obtain ⟨k1, v1⟩ := hd
      intro tfs k h
      simp only [lookupField] at h
      by_cases hk : k1 = k
      · simp [hk] at h
      · rw [if_neg hk] at h
        rw [deepMergeFields, ih _ k h]
        exact lookupField_setField_ne _ _ _ _ (Ne.symm hk)

theorem lookup_deepMergeFields_some (dfs : List (String × JVal)) :
    ∀ (tfs : List (String × JVal)) (k : String) (dv : JVal),
      keysNodupB dfs = true → lookupField dfs k = some dv →
      lookupField (deepMergeFields tfs dfs) k =
        some (mergedEntryVal (lookupField tfs k) dv) := by
  induction dfs with
  | nil => intro tfs k dv _ h; simp [lookupField] at h
  | cons hd rest ih =>
      obtain ⟨k1, v1⟩ := hd
      intro tfs k dv hnd h
      simp only [keysNodupB, Bool.and_eq_true, Option.isNone_iff_eq_none] at hnd
      simp only [lookupField] at h
      rw [deepMergeFields]
      by_cases hk : k1 = k
      · subst hk
        rw [if_pos rfl] at h
        cases h
        rw [lookup_deepMergeFields_none rest _ k1 hnd.1]
        exact lookupField_setField_self _ _ _
      · rw [if_neg hk] at h
        rw [ih _ k dv hnd.2 h, lookupField_setField_ne tfs k1 k _ (Ne.symm hk)]

theorem partialFieldsB_lookup (sfs : List (String × JVal)) (dfs : List (String × JVal)) :
    ∀ (k : String) (dv : JVal), partialFieldsB sfs dfs = true →
      lookupField dfs k = some dv →
      ∃ sv, lookupField sfs k = some sv ∧
        ((∃ ssub, sv = JVal.obj ssub ∧
            ∃ dsub, dv = JVal.obj dsub ∧ partialFieldsB ssub dsub = true ∧
              keysNodupB dsub = true) ∨
         (isObjB sv = false ∧ isObjB dv = false)) := by
  induction dfs with
  | nil => intro k dv _ h; simp [lookupField] at h
  | cons hd rest ih =>
      obtain ⟨k1, v1⟩ := hd
      intro k dv hp h
      rw [partialFieldsB, Bool.and_eq_true] at hp
      obtain ⟨hp1, hp2⟩ := hp
      simp only [lookupField] at h
      by_cases hk : k1 = k
      · subst hk
        rw [if_pos rfl] at h
        cases h
        cases hsv : lookupField sfs k1 with
        | none => rw [hsv] at hp1; simp [partialEntryB] at hp1
        | some sv =>
            rw [hsv] at hp1
            refine ⟨sv, rfl, ?_⟩
            cases sv <;> cases v1 <;> (try simp only [partialEntryB] at hp1) <;>
              first
                | (rw [Bool.and_eq_true] at hp1
                   exact Or.inl ⟨_, rfl, _, rfl, hp1.1, hp1.2⟩)
                | exact absurd hp1 (by decide)
                | exact Or.inr ⟨rfl, rfl⟩
      · rw [if_neg hk] at h
        exact ih k dv hp2 h

theorem getPath_nonobj (v : JVal) (k : String) (ks : List String)
    (h : isObjB v = false) : getPath v (k :: ks) = none := by
  cases v with
  | obj fs => simp [isObjB] at h
  | null => rfl
  | bool b => rfl
  | num q => rfl
  | str s => rfl
  | arr xs => rfl

theorem deepMergeFields_path_spec :
    ∀ (p : List String) (sfs dfs : List (String × JVal)),
      keysNodupB dfs = true → partialFieldsB sfs dfs = true →
      ((getPath (JVal.obj sfs) p).isSome = true →
         (getPath (JVal.obj (deepMergeFields sfs dfs)) p).isSome = true)
      ∧ (∀ v, getPath (JVal.obj dfs) p = some v → isObjB v = false →
           getPath (JVal.obj (deepMergeFields sfs dfs)) p = some v) := by
  intro p
  induction p with
  | nil =>
      intro sfs dfs hnd hp
      constructor
      · intro _; rfl
      · intro v hv hobj
        simp only [getPath, Option.some.injEq] at hv
        rw [← hv] at hobj
        simp [isObjB] at hobj
  | cons k ks ih =>
      intro sfs dfs hnd hp
      constructor
      · intro hsome
        simp only [getPath] at hsome ⊢
        cases hsv : lookupField sfs k with
        | none => rw [hsv] at hsome; simp at hsome
        | some sv =>
            rw [hsv] at hsome
            dsimp only at hsome
            cases hdk : lookupField dfs k with
            | none =>
                rw [lookup_deepMergeFields_none dfs sfs k hdk, hsv]
                exact hsome
            | some dv =>
                rw [lookup_deepMergeFields_some dfs sfs k dv hnd hdk]
                dsimp only
                obtain ⟨sv', hsv', hcase⟩ := partialFieldsB_lookup sfs dfs k dv hp hdk
                rw [hsv] at hsv'
                injection hsv' with hsv''
                subst hsv''
                rw [hsv]
                rcases hcase with ⟨ssub, rfl, dsub, rfl, hpsub, hndsub⟩ | ⟨hso, hdo⟩
                · rw [mergedEntryVal_obj_obj]
                  exact (ih ssub dsub hndsub hpsub).1 hsome
                · rw [mergedEntryVal_nonobj _ dv hdo]
                  cases ks with
                  | nil => simp [getPath]
                  | cons k2 ks2 =>
                      rw [getPath_nonobj sv k2 ks2 hso] at hsome
                      simp at hsome
      · intro v hv hobj
        simp only [getPath] at hv ⊢
        cases hdk : lookupField dfs k with
        | none => rw [hdk] at hv; simp at hv
        | some dv =>
            rw [hdk] at hv
            dsimp only at hv
            obtain ⟨sv, hsv, hcase⟩ := partialFieldsB_lookup sfs dfs k dv hp hdk
            rw [lookup_deepMergeFields_some dfs sfs k dv hnd hdk]
            dsimp only
            rw [hsv]
            rcases hcase with ⟨ssub, rfl, dsub, rfl, hpsub, hndsub⟩ | ⟨hso, hdo⟩
            · rw [mergedEntryVal_obj_obj]
              exact (ih ssub dsub hndsub hpsub).2 v hv hobj
            · rw [mergedEntryVal_nonobj _ dv hdo]
              exact hv

/-- Claim C1: for every partial persisted document (a duplicate-free
document shaped like the default schema where present),
`mergeWithDefaults` returns a document in which every key (path) of the
default schema is still present, and every leaf value of the persisted
document — scalars, `null`, and arrays, the latter replaced wholesale
and never merged element-wise — overrides the default at its path,
recursively through nested objects. -/
theorem mergeWithDefaults_spec (dfs : List (String × JVal))
    (hnd : keysNodupB dfs = true)
    (hpart : partialFieldsB defaultSettingsFields dfs = true) :
    (∀ p, (getPath defaultSettings p).isSome = true →
       (getPath (mergeWithDefaults (JVal.obj dfs)) p).isSome = true)
  ∧ (∀ p v, getPath (JVal.obj dfs) p = some v → isObjB v = false →
       getPath (mergeWithDefaults (JVal.obj dfs)) p = some v) := by
  constructor
  · intro p hsome
    exact (deepMergeFields_path_spec p defaultSettingsFields dfs hnd hpart).1 hsome
  · intro p v hv hobj
    exact (deepMergeFields_path_spec p defaultSettingsFields dfs hnd hpart).2 v hv hobj

/-- Concrete partial persisted document: overrides the theme mode and
replaces the engines list wholesale with a single custom engine. -/
def demoPartialDoc : List (String × JVal) :=
  [("theme", JVal.obj [("mode", JVal.str "dark")]),
   ("engines", JVal.obj
     [("list", JVal.arr [engineJVal "custom" "Custom" "https://c.example/?q=%s" "i.svg"])])]

/-- Witness for C1: the demo partial document is duplicate-free and
schema-shaped, the merged document still has the default path
`general.searchWidth`, and the persisted `engines.list` array replaces
the default array wholesale. -/
theorem mergeWithDefaults_spec_witness :
    keysNodupB demoPartialDoc = true ∧
    partialFieldsB defaultSettingsFields demoPartialDoc = true ∧
    (getPath (mergeWithDefaults (JVal.obj demoPartialDoc))
        ["general", "searchWidth"]).isSome = true ∧
    getPath (mergeWithDefaults (JVal.obj demoPartialDoc)) ["engines", "list"] =
      some (JVal.arr [engineJVal "custom" "Custom" "https://c.example/?q=%s" "i.svg"]) := by
  have hnd : keysNodupB demoPartialDoc = true := rfl
  have hpart : partialFieldsB defaultSettingsFields demoPartialDoc = true := by
    simp [partialFieldsB, partialEntryB, keysNodupB, lookupField,
          defaultSettingsFields, demoPartialDoc]
  refine ⟨hnd, hpart, ?_, ?_⟩
  · exact (mergeWithDefaults_spec demoPartialDoc hnd hpart).1
      ["general", "searchWidth"] rfl
  · exact (mergeWithDefaults_spec demoPartialDoc hnd hpart).2
      ["engines", "list"] _ rfl rfl
